import Mathlib

/-
Formal model of the GPU ring-bandwidth benchmark harness of the HIP
repository.  The repository contains three ring-benchmark programs that
share one structure:

  * `mpigpuawarering.c` — direct-buffer variant: GPU-aware MPI point-to-point
    messaging on device buffers;
  * `mpigpuring.c` — host-staged variant: device-to-host copy, host MPI
    messaging, host-to-device copy;
  * `rcclring.c` — collective-library variant: RCCL grouped send/recv on a
    stream, timed with device events.

The definitions below are shallow embeddings of those programs: compile-time
configuration constants, the ring-topology arithmetic, the per-message-size
event trace of each variant (transcribed statement by statement from the
per-size loop body), the oversize-count guard, the accelerator selection,
the buffer-content semantics of a ring round, and the bandwidth formulas.
Machine `int` arithmetic is modelled on `Int` (all operands involved are
nonnegative and in range, where C truncated `%` agrees with `Int.emod`),
`size_t` on `Nat`, and `double` values on `ℚ` (every value the programs
put in a buffer is a small integer, exactly representable).
-/

/-- Compile-time configuration shared by all three ring programs:
minimum message size in bytes, `(1LL << 26)`. -/
def MIN_MSG_SIZE : Nat := 2 ^ 26

/-- Maximum message size in bytes, `(1LL << 33)`. -/
def MAX_MSG_SIZE : Nat := 2 ^ 33

/-- Number of timed repetitions per message size, `N_REPEAT`. -/
def N_REPEAT : Nat := 10

/-- Number of warm-up iterations in `rcclring.c` only, `N_WARMUP`. -/
def N_WARMUP : Nat := 2

/-- `INT_MAX` of the reference environment: the transport's 32-bit signed
maximum element count. -/
def INT_MAX : Nat := 2 ^ 31 - 1

/-- `sizeof(double)` in the reference environment. -/
def SIZEOF_DOUBLE : Nat := 8

/-- Ring successor, from `const int next = (world_rank + 1) % world_size;`
(identical line in all three programs). -/
def nextRank (r P : Int) : Int := (r + 1) % P

/-- Ring predecessor, from
`const int prev = (world_rank - 1 + world_size) % world_size;`
(identical line in all three programs). -/
def prevRank (r P : Int) : Int := (r - 1 + P) % P

/-- Iterating the ring successor map `t` times from rank `r`. -/
def nextIter (P : Int) : Nat → Int → Int
  | 0, r => r
  | t + 1, r => nextIter P t (nextRank r P)

/-- Adding something to a reduced residue and reducing again is reduction of
the plain sum. -/
theorem emod_add_left_absorb (a b P : Int) :
    (a % P + b) % P = (a + b) % P := by
  rw [Int.add_emod, Int.emod_emod_of_dvd a dvd_rfl, ← Int.add_emod]

/-- The iterate of the successor map is addition modulo the group size. -/
theorem nextIter_formula (P : Int) (hP : 1 ≤ P) :
    ∀ (t : Nat) (r : Int), 0 ≤ r → r < P → nextIter P t r = (r + t) % P := by
  intro t
  induction t with
  | zero =>
      intro r hr0 hrP
      simpa using (Int.emod_eq_of_lt hr0 hrP).symm
  | succ t ih =>
      intro r hr0 hrP
      have hPpos : (0 : Int) < P := by omega
      have hne : P ≠ 0 := by omega
      have h0 : 0 ≤ nextRank r P := Int.emod_nonneg _ hne
      have h1 : nextRank r P < P := Int.emod_lt_of_pos _ hPpos
      have := ih (nextRank r P) h0 h1
      calc nextIter P (t + 1) r = nextIter P t (nextRank r P) := rfl
    _ = (nextRank r P + t) % P := this
    _ = ((r + 1) % P + t) % P := rfl
    _ = (r + 1 + t) % P := emod_add_left_absorb _ _ _
    _ = (r + (t + 1)) % P := by ring_nf

/-- C5 topology facts, packaged: the successor and predecessor maps from the
source are mutually inverse on `[0, P)`, the successor map returns to the
start after exactly `P` steps and not earlier, and its orbit from any rank
covers every rank — a single cycle (a self-loop when `P = 1`). -/
def topologyCycleFacts (P r : Int) : Prop :=
  nextRank (prevRank r P) P = r ∧
  prevRank (nextRank r P) P = r ∧
  nextIter P P.toNat r = r ∧
  (∀ t : Nat, 0 < t → (t : Int) < P → nextIter P t r ≠ r) ∧
  (∀ s : Int, 0 ≤ s → s < P → ∃ t : Nat, (t : Int) < P ∧ nextIter P t r = s)

/-- C5: For all group sizes `P ≥ 1` and ranks `r ∈ [0, P)`,
`next (prev r) = r`, `prev (next r) = r`, and the `next` mapping is a single
cycle through all `P` ranks: iterating it `P` times is the identity, no
smaller positive iterate fixes `r`, and every rank is reached from `r` in
fewer than `P` steps. -/
theorem ring_topology_cycle (P r : Int) (hP : 1 ≤ P) (hr0 : 0 ≤ r)
    (hrP : r < P) : topologyCycleFacts P r := by
  have hPpos : (0 : Int) < P := by omega
  have hne : P ≠ 0 := by omega
  have hself : r % P = r := Int.emod_eq_of_lt hr0 hrP
  refine ⟨?_, ?_, ?_, ?_, ?_⟩
  · show ((r - 1 + P) % P + 1) % P = r
    rw [emod_add_left_absorb]
    have h : r - 1 + P + 1 = r + P * 1 := by ring
    rw [h, Int.add_mul_emod_self_left, hself]
  · show ((r + 1) % P - 1 + P) % P = r
    have h : ((r + 1) % P - 1 + P) = ((r + 1) % P + (P - 1)) := by ring
    rw [h, emod_add_left_absorb]
    have h2 : r + 1 + (P - 1) = r + P * 1 := by ring
    rw [h2, Int.add_mul_emod_self_left, hself]
  · rw [nextIter_formula P hP P.toNat r hr0 hrP]
    have hcast : ((P.toNat : Int)) = P := Int.toNat_of_nonneg (by omega)
    rw [hcast]
    have h : r + P = r + P * 1 := by ring
    rw [h, Int.add_mul_emod_self_left, hself]
  · intro t ht htP hEq
    rw [nextIter_formula P hP t r hr0 hrP] at hEq
    have h1 : (r + t) % P = r % P := by rw [hEq, hself]
    have h2 : (r + t - r) % P = 0 :=
      Int.emod_eq_emod_iff_emod_sub_eq_zero.mp h1
    have h3 : (t : Int) % P = 0 := by
      have h : r + (t : Int) - r = (t : Int) := by ring
      rwa [h] at h2
    have ht0 : (0 : Int) < t := by exact_mod_cast ht
    rw [Int.emod_eq_of_lt (by omega) htP] at h3
    omega
  · intro s hs0 hsP
    refine ⟨((s - r + P) % P).toNat, ?_, ?_⟩
    · have h0 : 0 ≤ (s - r + P) % P := Int.emod_nonneg _ hne
      have h1 : (s - r + P) % P < P := Int.emod_lt_of_pos _ hPpos
      rw [Int.toNat_of_nonneg h0]
      exact h1
    · rw [nextIter_formula P hP _ r hr0 hrP]
      have h0 : 0 ≤ (s - r + P) % P := Int.emod_nonneg _ hne
      rw [Int.toNat_of_nonneg h0]
      have h : (r + (s - r + P) % P) % P = ((s - r + P) % P + r) % P := by
        ring_nf
      rw [h, emod_add_left_absorb]
      have h2 : s - r + P + r = s + P * 1 := by ring
      rw [h2, Int.add_mul_emod_self_left, Int.emod_eq_of_lt hs0 hsP]

/-- Witness for the C5 theorem at the concrete group size `P = 4`, `r = 2`. -/
theorem ring_topology_cycle_witness :
    (1 : Int) ≤ 4 ∧ (0 : Int) ≤ 2 ∧ (2 : Int) < 4 ∧ topologyCycleFacts 4 2 :=
  ⟨by decide, by decide, by decide,
   ring_topology_cycle 4 2 (by decide) (by decide) (by decide)⟩

/-- One observable action of a ring-benchmark process during a message-size
step.  Each constructor corresponds to one statement kind of the C sources;
`recvPost`/`sendPost` cover both `MPI_Irecv`/`MPI_Isend` and
`ncclRecv`/`ncclSend` and carry the peer rank argument. -/
inductive Ev : Type
  | mallocSend      -- hipMalloc of the device send buffer
  | mallocRecv      -- hipMalloc of the device receive buffer
  | hostAlloc       -- malloc of a host buffer
  | hostFillSend    -- the loop writing (double)(world_rank + 1) to every element
  | copyH2DSend     -- hipMemcpy host -> device of the initialized send data
  | hostFree        -- free of a host buffer
  | devSync         -- hipDeviceSynchronize
  | barrier         -- MPI_Barrier(MPI_COMM_WORLD)
  | wtime           -- a read of MPI_Wtime at a timing boundary
  | recvPost (peer : Int)  -- MPI_Irecv / ncclRecv from peer
  | sendPost (peer : Int)  -- MPI_Isend / ncclSend to peer
  | waitAll         -- MPI_Waitall on the posted pair
  | groupStart      -- ncclGroupStart
  | groupEnd        -- ncclGroupEnd (submits the grouped pair)
  | streamSync      -- hipStreamSynchronize
  | evCreate        -- hipEventCreate
  | evRecordStart   -- hipEventRecord of the start event
  | evRecordStop    -- hipEventRecord of the stop event
  | evSync          -- hipEventSynchronize on the stop event
  | evElapsed       -- hipEventElapsedTime accumulation into total_ms
  | stageD2H        -- hipMemcpy device send buffer -> host mirror (host-staged round)
  | unstageH2D      -- hipMemcpy host mirror -> device receive buffer
  | readSend0       -- hipMemcpy of send[0] back to the host for verification
  | readRecv0       -- hipMemcpy of recv[0] back to the host for verification
  | gather          -- MPI_Gather of one result field to rank 0
  | freeSend        -- hipFree of the device send buffer
  | freeRecv        -- hipFree of the device receive buffer
  | evDestroy       -- hipEventDestroy
deriving DecidableEq

/-- Repeat a loop body trace `n` times, mirroring `for (rep = 0; ...)`. -/
def loopN : Nat → List Ev → List Ev
  | 0, _ => []
  | n + 1, body => body ++ loopN n body

/-- One timed repetition of `mpigpuawarering.c` (lines 194–205):
device sync, wall-clock read, receive posted from `prv`, send posted to
`nxt`, wait on both, device sync, wall-clock read. -/
def gpuAwareRound (nxt prv : Int) : List Ev :=
  [.devSync, .wtime, .recvPost prv, .sendPost nxt, .waitAll, .devSync, .wtime]

/-- One timed repetition of `mpigpuring.c` (lines 763–782): device sync,
wall-clock read, stage device send data to the host mirror, device sync,
receive posted from `prv`, send posted to `nxt`, wait on both, copy the
received host mirror to the device receive buffer, device sync, wall-clock
read. -/
def hostStagedRound (nxt prv : Int) : List Ev :=
  [.devSync, .wtime, .stageD2H, .devSync, .recvPost prv, .sendPost nxt,
   .waitAll, .unstageH2D, .devSync, .wtime]

/-- One warm-up repetition of `rcclring.c` (lines 199–204): a grouped
receive-from-`prv` / send-to-`nxt` submission. -/
def rcclWarmRound (nxt prv : Int) : List Ev :=
  [.groupStart, .recvPost prv, .sendPost nxt, .groupEnd]

/-- One timed repetition of `rcclring.c` (lines 215–229): start event
recorded, grouped receive/send submission, stop event recorded, wait for
the stop event, elapsed time accumulated. -/
def rcclTimedRound (nxt prv : Int) : List Ev :=
  [.evRecordStart, .groupStart, .recvPost prv, .sendPost nxt, .groupEnd,
   .evRecordStop, .evSync, .evElapsed]

/-- The per-message-size trace of `mpigpuawarering.c` (lines 165–261,
size-check already passed): allocate both device buffers, allocate and fill
the host init buffer, upload it, free it, synchronize the device, global
barrier, ten timed rounds, read back both first elements, three gathers,
free both device buffers. -/
def gpuAwareStepTrace (nxt prv : Int) : List Ev :=
  [.mallocSend, .mallocRecv, .hostAlloc, .hostFillSend, .copyH2DSend,
   .hostFree, .devSync, .barrier]
  ++ loopN N_REPEAT (gpuAwareRound nxt prv)
  ++ [.readSend0, .readRecv0, .gather, .gather, .gather, .freeSend, .freeRecv]

/-- The per-message-size trace of `mpigpuring.c` (lines 730–840): allocate
both device buffers, allocate both host mirrors, fill the host send mirror,
upload it, synchronize the device, global barrier, ten timed rounds, read
back both first elements, three gathers, free device buffers and host
mirrors. -/
def hostStagedStepTrace (nxt prv : Int) : List Ev :=
  [.mallocSend, .mallocRecv, .hostAlloc, .hostAlloc, .hostFillSend,
   .copyH2DSend, .devSync, .barrier]
  ++ loopN N_REPEAT (hostStagedRound nxt prv)
  ++ [.readSend0, .readRecv0, .gather, .gather, .gather, .freeSend, .freeRecv,
      .hostFree, .hostFree]

/-- The per-message-size trace of `rcclring.c` (lines 175–289): allocate
both device buffers, allocate and fill the host init buffer, upload it,
free it, synchronize the device, two warm-up rounds, stream sync, create
the two timing events, ten timed rounds, device sync, read back both first
elements, three gathers, free buffers and destroy the events.  Note: no
`MPI_Barrier` occurs anywhere in this loop body. -/
def rcclStepTrace (nxt prv : Int) : List Ev :=
  [.mallocSend, .mallocRecv, .hostAlloc, .hostFillSend, .copyH2DSend,
   .hostFree, .devSync]
  ++ loopN N_WARMUP (rcclWarmRound nxt prv)
  ++ [.streamSync, .evCreate, .evCreate]
  ++ loopN N_REPEAT (rcclTimedRound nxt prv)
  ++ [.devSync, .readSend0, .readRecv0, .gather, .gather, .gather,
      .freeSend, .freeRecv, .evDestroy, .evDestroy]

/-- Events that write the send payload and upload it to the device. -/
def isInitEv : Ev → Bool
  | .hostFillSend => true
  | .copyH2DSend => true
  | _ => false

/-- The event that starts a timed interval: a wall-clock read in the MPI
variants, a start-event record in the RCCL variant. -/
def isTimingStart : Ev → Bool
  | .wtime => true
  | .evRecordStart => true
  | _ => false

/-- Recognizer for the global barrier. -/
def isBarrier : Ev → Bool
  | .barrier => true
  | _ => false

/-- Recognizer for a posted non-blocking receive. -/
def isRecvPost : Ev → Bool
  | .recvPost _ => true
  | _ => false

/-- Recognizer for a posted non-blocking send. -/
def isSendPost : Ev → Bool
  | .sendPost _ => true
  | _ => false

/-- Recognizer for an operation that waits for posted transport operations
to complete: `MPI_Waitall`, `hipEventSynchronize`, `hipStreamSynchronize`. -/
def isCommWait : Ev → Bool
  | .waitAll => true
  | .evSync => true
  | .streamSync => true
  | _ => false

/-- A step trace has a properly placed global barrier when a barrier
exists, no send-buffer initialization event follows it, and it precedes
the first timed interval. -/
def barrierPlacedOK (tr : List Ev) : Bool :=
  match tr.findIdx? isBarrier, tr.findIdx? isTimingStart with
  | some b, some t => ((tr.drop (b + 1)).all fun e => !(isInitEv e)) && b < t
  | _, _ => false

/-- A round trace posts exactly one receive and exactly one send, the
receive strictly before the send, and waits for neither until both are
posted. -/
def recvThenSendThenWait (tr : List Ev) : Bool :=
  match tr.findIdx? isRecvPost, tr.findIdx? isSendPost with
  | some i, some j =>
      (tr.countP isRecvPost == 1) && (tr.countP isSendPost == 1) &&
      decide (i < j) &&
      (match tr.findIdx? isCommWait with
       | some k => decide (j < k)
       | none => true)
  | _, _ => false

/-- Number of rounds (identified by their posted receive) occurring before
any timed interval has started: the warm-up rounds of a step trace. -/
def warmupRoundCount (tr : List Ev) : Nat :=
  (tr.takeWhile fun e => !(isTimingStart e)).countP isRecvPost

/-- Number of rounds occurring at or after the first timed interval. -/
def timedRoundCount (tr : List Ev) : Nat :=
  (tr.dropWhile fun e => !(isTimingStart e)).countP isRecvPost

/-- Counterexample to C1 as stated: in the collective-library variant
(`rcclring.c`), instantiated at the concrete peers `next = 1`, `prev = 3`
of rank 0 in a 4-process ring, the per-size trace contains no global
barrier at all, so no barrier is executed between initialization and the
first timed round. -/
theorem ring_barrier_claim_cex :
    (rcclStepTrace 1 3).countP isBarrier = 0 ∧
    barrierPlacedOK (rcclStepTrace 1 3) = false := by
  exact ⟨rfl, rfl⟩

/-- C1 amended: in the direct-buffer and host-staged variants a global
barrier is executed after the send buffer is initialized and synchronized
and before the first timed round; the collective-library variant executes
no global barrier in its per-size step — there, two warm-up rounds and a
stream synchronization stand between initialization and the first timed
round. -/
theorem ring_barrier_placement (nxt prv : Int) :
    barrierPlacedOK (gpuAwareStepTrace nxt prv) = true ∧
    barrierPlacedOK (hostStagedStepTrace nxt prv) = true ∧
    (rcclStepTrace nxt prv).countP isBarrier = 0 ∧
    warmupRoundCount (rcclStepTrace nxt prv) = N_WARMUP := by
  exact ⟨rfl, rfl, rfl, rfl⟩

/-- C3: in every variant, within each round — the timed MPI rounds, the
host-staged timed rounds, and the RCCL warm-up and timed rounds — exactly
one non-blocking receive and one non-blocking send are posted, the receive
(from the previous peer) strictly before the send (to the next peer), and
no completion wait occurs until both are posted. -/
theorem ring_round_recv_before_send (nxt prv : Int) :
    (recvThenSendThenWait (gpuAwareRound nxt prv) = true ∧
     (gpuAwareRound nxt prv).find? isRecvPost = some (.recvPost prv) ∧
     (gpuAwareRound nxt prv).find? isSendPost = some (.sendPost nxt)) ∧
    (recvThenSendThenWait (hostStagedRound nxt prv) = true ∧
     (hostStagedRound nxt prv).find? isRecvPost = some (.recvPost prv) ∧
     (hostStagedRound nxt prv).find? isSendPost = some (.sendPost nxt)) ∧
    (recvThenSendThenWait (rcclWarmRound nxt prv) = true ∧
     (rcclWarmRound nxt prv).find? isRecvPost = some (.recvPost prv) ∧
     (rcclWarmRound nxt prv).find? isSendPost = some (.sendPost nxt)) ∧
    (recvThenSendThenWait (rcclTimedRound nxt prv) = true ∧
     (rcclTimedRound nxt prv).find? isRecvPost = some (.recvPost prv) ∧
     (rcclTimedRound nxt prv).find? isSendPost = some (.sendPost nxt)) := by
  exact ⟨⟨rfl, rfl, rfl⟩, ⟨rfl, rfl, rfl⟩, ⟨rfl, rfl, rfl⟩, ⟨rfl, rfl, rfl⟩⟩

/-- C10: only the collective-library variant runs warm-up rounds — exactly
`N_WARMUP = 2` per message size, all of them before any timed interval
begins, hence excluded from the timing accumulator; the direct-buffer and
host-staged variants run zero warm-up rounds, and in every variant exactly
`N_REPEAT = 10` rounds fall inside the timed region. -/
theorem ring_warmup_counts (nxt prv : Int) :
    warmupRoundCount (rcclStepTrace nxt prv) = 2 ∧
    warmupRoundCount (gpuAwareStepTrace nxt prv) = 0 ∧
    warmupRoundCount (hostStagedStepTrace nxt prv) = 0 ∧
    timedRoundCount (rcclStepTrace nxt prv) = N_REPEAT ∧
    timedRoundCount (gpuAwareStepTrace nxt prv) = N_REPEAT ∧
    timedRoundCount (hostStagedStepTrace nxt prv) = N_REPEAT ∧
    (rcclStepTrace nxt prv).countP isRecvPost = N_WARMUP + N_REPEAT ∧
    (gpuAwareStepTrace nxt prv).countP isRecvPost = N_REPEAT ∧
    (hostStagedStepTrace nxt prv).countP isRecvPost = N_REPEAT ∧
    N_WARMUP = 2 ∧ N_REPEAT = 10 := by
  exact ⟨rfl, rfl, rfl, rfl, rfl, rfl, rfl, rfl, rfl, rfl, rfl⟩

/-- The per-size body of `mpigpuawarering.c` including its leading guard
(lines 158–163): if `count = msg_size / sizeof(double)` exceeds `INT_MAX`,
print a message naming the element count and call
`MPI_Abort(MPI_COMM_WORLD, -1)` — nothing else of the body executes;
otherwise the body's trace runs.  The result pairs the executed trace with
the optional (reported element count, abort code). -/
def gpuAwareStep (msg_size : Nat) (nxt prv : Int) :
    List Ev × Option (Nat × Int) :=
  if INT_MAX < msg_size / SIZEOF_DOUBLE then
    ([], some (msg_size / SIZEOF_DOUBLE, -1))
  else
    (gpuAwareStepTrace nxt prv, none)

/-- The per-size body of `mpigpuring.c` including its leading guard
(lines 723–727), same shape as `gpuAwareStep`. -/
def hostStagedStep (msg_size : Nat) (nxt prv : Int) :
    List Ev × Option (Nat × Int) :=
  if INT_MAX < msg_size / SIZEOF_DOUBLE then
    ([], some (msg_size / SIZEOF_DOUBLE, -1))
  else
    (hostStagedStepTrace nxt prv, none)

/-- The per-size body of `rcclring.c` including its leading guard
(lines 169–173), same shape as `gpuAwareStep`. -/
def rcclStep (msg_size : Nat) (nxt prv : Int) :
    List Ev × Option (Nat × Int) :=
  if INT_MAX < msg_size / SIZEOF_DOUBLE then
    ([], some (msg_size / SIZEOF_DOUBLE, -1))
  else
    (rcclStepTrace nxt prv, none)

/-- C6: in every variant, whenever a step's element count
`msg_size / sizeof(double)` exceeds the transport's 32-bit signed maximum,
the step executes no event at all — no buffer allocation and no transport
call — and aborts the whole job with the non-zero code `-1`, reporting the
offending element count. -/
theorem ring_size_guard (msg_size : Nat) (nxt prv : Int)
    (h : INT_MAX < msg_size / SIZEOF_DOUBLE) :
    gpuAwareStep msg_size nxt prv = ([], some (msg_size / SIZEOF_DOUBLE, -1)) ∧
    hostStagedStep msg_size nxt prv = ([], some (msg_size / SIZEOF_DOUBLE, -1)) ∧
    rcclStep msg_size nxt prv = ([], some (msg_size / SIZEOF_DOUBLE, -1)) ∧
    (-1 : Int) ≠ 0 := by
  refine ⟨?_, ?_, ?_, by decide⟩ <;>
    simp [gpuAwareStep, hostStagedStep, rcclStep, if_pos h]

/-- Witness for the C6 theorem at the concrete oversize message size
`2^34` bytes, whose element count `2^31` exceeds `INT_MAX`. -/
theorem ring_size_guard_witness :
    INT_MAX < 2 ^ 34 / SIZEOF_DOUBLE ∧
    (gpuAwareStep (2 ^ 34) 1 3 = ([], some (2 ^ 34 / SIZEOF_DOUBLE, -1)) ∧
     hostStagedStep (2 ^ 34) 1 3 = ([], some (2 ^ 34 / SIZEOF_DOUBLE, -1)) ∧
     rcclStep (2 ^ 34) 1 3 = ([], some (2 ^ 34 / SIZEOF_DOUBLE, -1)) ∧
     (-1 : Int) ≠ 0) :=
  ⟨by decide, ring_size_guard (2 ^ 34) 1 3 (by decide)⟩

/-- The doubling message-size loop header shared by all three programs:
`for (msg_size = MIN_MSG_SIZE; msg_size <= MAX_MSG_SIZE; msg_size <<= 1)`.
The fuel argument strictly exceeds any possible iteration count of the
source loop (which doubles a positive size each step). -/
def msgSizeSeq : Nat → Nat → List Nat
  | 0, _ => []
  | fuel + 1, s =>
      if s ≤ MAX_MSG_SIZE then s :: msgSizeSeq fuel (s * 2) else []

/-- The message sizes every ring program visits. -/
def msgSizes : List Nat := msgSizeSeq 64 MIN_MSG_SIZE

/-- C9: under the compiled configuration the size loop visits exactly 8
sizes, `2^26` through `2^33` doubling, every visited size's element count
is at most `2^30`, which is below the 32-bit signed maximum — hence in all
three variants the fatal size-limit branch is never taken on any visited
size. -/
theorem ring_sizes_guard_unreachable :
    msgSizes.length = 8 ∧
    msgSizes = [2 ^ 26, 2 ^ 27, 2 ^ 28, 2 ^ 29, 2 ^ 30, 2 ^ 31, 2 ^ 32, 2 ^ 33] ∧
    (msgSizes.all fun s => s / SIZEOF_DOUBLE ≤ 2 ^ 30) = true ∧
    (2 : Nat) ^ 30 < INT_MAX ∧
    (msgSizes.all fun s =>
      (gpuAwareStep s 1 3).2.isNone && (hostStagedStep s 1 3).2.isNone &&
      (rcclStep s 1 3).2.isNone) = true := by
  refine ⟨rfl, rfl, rfl, by decide, rfl⟩

/-- Node-local rank, modelling
`MPI_Comm_split_type(MPI_COMM_WORLD, MPI_COMM_TYPE_SHARED, 0, ...)`
followed by `MPI_Comm_rank(host_comm, &host_rank)`: with split key `0`,
ranks on one node are ordered by their world rank, so the node-local rank
of world rank `r` under the node assignment `nodeOf` is the number of
smaller world ranks placed on the same node. -/
def localRankOf (nodeOf : Nat → Nat) (r : Nat) : Nat :=
  (List.range r).countP fun q => nodeOf q == nodeOf r

/-- Accelerator index chosen by `mpigpuawarering.c` (line 135):
`hipSetDevice(host_rank % num_devices)`. -/
def gpuAwareDeviceIndex (nodeOf : Nat → Nat) (world_rank num_devices : Nat) :
    Nat :=
  localRankOf nodeOf world_rank % num_devices

/-- Accelerator index chosen by `mpigpuring.c` (line 700):
`hipSetDevice(host_rank % num_devices)`. -/
def hostStagedDeviceIndex (nodeOf : Nat → Nat) (world_rank num_devices : Nat) :
    Nat :=
  localRankOf nodeOf world_rank % num_devices

/-- Accelerator index chosen by `rcclring.c` (line 132):
`hipSetDevice(world_rank % num_devices)` — the world rank, not the
node-local rank. -/
def rcclDeviceIndex (_nodeOf : Nat → Nat) (world_rank num_devices : Nat) :
    Nat :=
  world_rank % num_devices

/-- Counterexample to C2 as stated: place 3 processes per node
(`nodeOf q = q / 3`) with 4 visible accelerators per node.  World rank 3 is
the first process of the second node, so its node-local rank is 0 and the
claimed selection is `0 % 4 = 0`; the collective-library variant instead
selects `3 % 4 = 3`. -/
theorem device_selection_claim_cex :
    rcclDeviceIndex (fun q => q / 3) 3 4 = 3 ∧
    localRankOf (fun q => q / 3) 3 % 4 = 0 ∧
    rcclDeviceIndex (fun q => q / 3) 3 4 ≠
      localRankOf (fun q => q / 3) 3 % 4 := by
  exact ⟨by decide, by decide, by decide⟩

/-- C2 amended: the direct-buffer and host-staged variants select their
accelerator as the node-local rank modulo the number of visible
accelerators; the collective-library variant selects the world rank modulo
the number of visible accelerators.  When all processes share one node the
node-local rank equals the world rank, so all three selections coincide
there; on multi-node layouts the collective-library selection can differ. -/
theorem device_selection_amended (nodeOf : Nat → Nat)
    (world_rank num_devices : Nat) :
    gpuAwareDeviceIndex nodeOf world_rank num_devices =
      localRankOf nodeOf world_rank % num_devices ∧
    hostStagedDeviceIndex nodeOf world_rank num_devices =
      localRankOf nodeOf world_rank % num_devices ∧
    rcclDeviceIndex nodeOf world_rank num_devices =
      world_rank % num_devices ∧
    localRankOf (fun _ => 0) world_rank = world_rank ∧
    rcclDeviceIndex (fun _ => 0) world_rank num_devices =
      gpuAwareDeviceIndex (fun _ => 0) world_rank num_devices := by
  have hsingle : ∀ q : Nat, localRankOf (fun _ => 0) q = q := by
    intro q
    unfold localRankOf
    have h : ∀ a ∈ List.range q, ((0 : Nat) == 0) = true := by
      intro a _
      decide
    rw [List.countP_eq_length.mpr h, List.length_range]
  refine ⟨rfl, rfl, rfl, hsingle world_rank, ?_⟩
  show world_rank % num_devices = localRankOf (fun _ => 0) world_rank % num_devices
  rw [hsingle world_rank]

/-- The send-buffer initialization of all three programs:
`for (i = 0; i < count; i++) h[i] = (double)(world_rank + 1);` — every
element of the `count`-element buffer holds `rank + 1`. -/
def initSendBuf (rank count : Nat) : List ℚ :=
  List.replicate count ((rank : ℚ) + 1)

/-- The predecessor of rank `r` in a `P`-ring as a natural number, the
value of the C expression `(world_rank - 1 + world_size) % world_size`. -/
def prevN (P r : Nat) : Nat :=
  (((r : Int) - 1 + P) % P).toNat

/-- Device buffer contents of every rank in the direct-buffer and
collective-library variants: a send and a receive region per rank. -/
structure RingBufs : Type where
  dSend : Nat → List ℚ
  dRecv : Nat → List ℚ

/-- One completed ring round of the direct-buffer and collective-library
variants: every rank's posted receive from its predecessor is matched by
the predecessor's posted send (the predecessor's successor is this rank),
so each receive buffer is overwritten with the predecessor's send buffer;
no round writes any send buffer. -/
def directRound (P : Nat) (st : RingBufs) : RingBufs where
  dSend := st.dSend
  dRecv := fun r => st.dSend (prevN P r)

/-- Initial buffer state of the direct variants at a size step with
`count` elements: every rank's send buffer initialized to `rank + 1`
replicated, receive buffers holding arbitrary prior contents `recv0`. -/
def directInit (count : Nat) (recv0 : Nat → List ℚ) : RingBufs where
  dSend := fun r => initSendBuf r count
  dRecv := recv0

/-- Buffer contents of every rank in the host-staged variant: device send
and receive regions plus their host mirrors. -/
structure StagedBufs : Type where
  dSend : Nat → List ℚ
  dRecv : Nat → List ℚ
  hSend : Nat → List ℚ
  hRecv : Nat → List ℚ

/-- One timed repetition of the host-staged variant, per rank: copy the
device send buffer into the host send mirror, exchange host mirrors around
the ring (each rank's host receive mirror gets its predecessor's host send
mirror), copy the host receive mirror into the device receive buffer.  The
device send buffer is only read. -/
def stagedRound (P : Nat) (st : StagedBufs) : StagedBufs :=
  let hS := fun r => st.dSend r
  let hR := fun r => hS (prevN P r)
  { dSend := st.dSend, dRecv := hR, hSend := hS, hRecv := hR }

/-- Initial buffer state of the host-staged variant at a size step: the
host send mirror is filled with `rank + 1` and copied to the device send
buffer; the receive regions hold arbitrary prior contents. -/
def stagedInit (count : Nat) (recv0 hrecv0 : Nat → List ℚ) : StagedBufs where
  dSend := fun r => initSendBuf r count
  dRecv := recv0
  hSend := fun r => initSendBuf r count
  hRecv := hrecv0

/-- Rounds of the direct variants never write any send buffer. -/
theorem directRound_iterate_dSend (P count n : Nat) (recv0 : Nat → List ℚ) :
    ((directRound P)^[n] (directInit count recv0)).dSend =
      fun r => initSendBuf r count := by
  induction n with
  | zero => rfl
  | succ n ih => rw [Function.iterate_succ_apply', directRound, ih]

/-- Rounds of the host-staged variant never write any device send buffer. -/
theorem stagedRound_iterate_dSend (P count n : Nat)
    (recv0 hrecv0 : Nat → List ℚ) :
    ((stagedRound P)^[n] (stagedInit count recv0 hrecv0)).dSend =
      fun r => initSendBuf r count := by
  induction n with
  | zero => rfl
  | succ n ih => rw [Function.iterate_succ_apply', stagedRound, ih]

/-- The facts C4 asserts, packaged over both point-to-point variants: the
initialized send buffer holds `r + 1` everywhere, and after any positive
number of completed rounds rank `r`'s receive buffer is its predecessor's
send buffer, every element equal to `((r - 1 + P) mod P) + 1`. -/
def ringRoundValueFacts (P count r n : Nat) (recv0 hrecv0 : Nat → List ℚ) :
    Prop :=
  (∀ x ∈ initSendBuf r count, x = (r : ℚ) + 1) ∧
  ((prevN P r : Int) = ((r : Int) - 1 + P) % P) ∧
  ((directRound P)^[n] (directInit count recv0)).dRecv r =
    initSendBuf (prevN P r) count ∧
  (∀ x ∈ ((directRound P)^[n] (directInit count recv0)).dRecv r,
    x = (prevN P r : ℚ) + 1) ∧
  ((stagedRound P)^[n] (stagedInit count recv0 hrecv0)).dRecv r =
    initSendBuf (prevN P r) count ∧
  (∀ x ∈ ((stagedRound P)^[n] (stagedInit count recv0 hrecv0)).dRecv r,
    x = (prevN P r : ℚ) + 1)

/-- C4: for every group size `P ≥ 1` and rank `r < P`, the send buffer is
filled with `r + 1` in every element before transport begins, and after
any completed ring round (in either point-to-point variant) every element
of rank `r`'s receive buffer equals `((r - 1 + P) mod P) + 1`, the value
written by its predecessor. -/
theorem ring_round_values (P count r n : Nat) (recv0 hrecv0 : Nat → List ℚ)
    (hP : 1 ≤ P) (_hr : r < P) (hn : 1 ≤ n) :
    ringRoundValueFacts P count r n recv0 hrecv0 := by
  have hnonneg : 0 ≤ ((r : Int) - 1 + P) % P :=
    Int.emod_nonneg _ (by omega)
  have hprev : (prevN P r : Int) = ((r : Int) - 1 + P) % P :=
    Int.toNat_of_nonneg hnonneg
  have hinit : ∀ (q : Nat), ∀ x ∈ initSendBuf q count, x = (q : ℚ) + 1 := by
    intro q x hx
    exact List.eq_of_mem_replicate hx
  obtain ⟨m, rfl⟩ : ∃ m, n = m + 1 := ⟨n - 1, by omega⟩
  have hdirect :
      ((directRound P)^[m + 1] (directInit count recv0)).dRecv r =
        initSendBuf (prevN P r) count := by
    rw [Function.iterate_succ_apply', directRound]
    show ((directRound P)^[m] (directInit count recv0)).dSend (prevN P r) =
      initSendBuf (prevN P r) count
    rw [directRound_iterate_dSend]
  have hstaged :
      ((stagedRound P)^[m + 1] (stagedInit count recv0 hrecv0)).dRecv r =
        initSendBuf (prevN P r) count := by
    rw [Function.iterate_succ_apply', stagedRound]
    show ((stagedRound P)^[m] (stagedInit count recv0 hrecv0)).dSend
        (prevN P r) = initSendBuf (prevN P r) count
    rw [stagedRound_iterate_dSend]
  refine ⟨hinit r, hprev, hdirect, ?_, hstaged, ?_⟩
  · intro x hx
    rw [hdirect] at hx
    exact hinit _ x hx
  · intro x hx
    rw [hstaged] at hx
    exact hinit _ x hx

/-- Witness for the C4 theorem: `P = 4` ranks, `count = 2` elements,
rank `r = 0`, one completed round, receive regions initially zeroed.  Rank
0's predecessor is rank 3, so its receive buffer holds `4.0`. -/
theorem ring_round_values_witness :
    1 ≤ 4 ∧ 0 < 4 ∧ 1 ≤ 1 ∧
    ringRoundValueFacts 4 2 0 1 (fun _ => [0, 0]) (fun _ => [0, 0]) :=
  ⟨by decide, by decide, by decide,
   ring_round_values 4 2 0 1 (fun _ => [0, 0]) (fun _ => [0, 0])
     (by decide) (by decide) (by decide)⟩

/-- The facts C8 asserts: through any number of rounds, rank `r`'s device
send buffer — and in particular its first element — keeps its
initialization value in both the direct/collective buffer semantics and
the host-staged semantics, and after at least one host-staged round the
host send mirror holds exactly the same data as the device send buffer
(the per-iteration round trip through host memory reproduces it
unchanged). -/
def ringSendFrameFacts (P count n r : Nat) (recv0 hrecv0 : Nat → List ℚ) :
    Prop :=
  ((directRound P)^[n] (directInit count recv0)).dSend r =
    initSendBuf r count ∧
  (((directRound P)^[n] (directInit count recv0)).dSend r).head? =
    some ((r : ℚ) + 1) ∧
  ((stagedRound P)^[n] (stagedInit count recv0 hrecv0)).dSend r =
    initSendBuf r count ∧
  (((stagedRound P)^[n] (stagedInit count recv0 hrecv0)).dSend r).head? =
    some ((r : ℚ) + 1) ∧
  (1 ≤ n →
    ((stagedRound P)^[n] (stagedInit count recv0 hrecv0)).hSend r =
      initSendBuf r count)

/-- C8: for every rank and array length, after any number of rounds the
send buffer's first element equals its initialization value `rank + 1`:
the direct-buffer and collective variants (both captured by the
`directRound` semantics) never write the device send buffer during a
round, and the host-staged variant's per-iteration round trip of the send
data through the host mirror reproduces the same value exactly. -/
theorem ring_send_frame (P count n r : Nat) (recv0 hrecv0 : Nat → List ℚ)
    (hcount : 1 ≤ count) : ringSendFrameFacts P count n r recv0 hrecv0 := by
  obtain ⟨m, rfl⟩ : ∃ m, count = m + 1 := ⟨count - 1, by omega⟩
  have hdir :
      ((directRound P)^[n] (directInit (m + 1) recv0)).dSend r =
        initSendBuf r (m + 1) := by
    rw [directRound_iterate_dSend]
  have hstg :
      ((stagedRound P)^[n] (stagedInit (m + 1) recv0 hrecv0)).dSend r =
        initSendBuf r (m + 1) := by
    rw [stagedRound_iterate_dSend]
  refine ⟨hdir, ?_, hstg, ?_, ?_⟩
  · rw [hdir]
    rfl
  · rw [hstg]
    rfl
  · intro hn
    obtain ⟨k, rfl⟩ : ∃ k, n = k + 1 := ⟨n - 1, by omega⟩
    rw [Function.iterate_succ_apply', stagedRound]
    show ((stagedRound P)^[k] (stagedInit (m + 1) recv0 hrecv0)).dSend r =
      initSendBuf r (m + 1)
    rw [stagedRound_iterate_dSend]

/-- Witness for the C8 theorem: `P = 4`, `count = 1`, three rounds,
rank `r = 2`, receive regions initially zeroed. -/
theorem ring_send_frame_witness :
    1 ≤ 1 ∧ ringSendFrameFacts 4 1 3 2 (fun _ => [0]) (fun _ => [0]) :=
  ⟨by decide,
   ring_send_frame 4 1 3 2 (fun _ => [0]) (fun _ => [0]) (by decide)⟩

/-- The timing accumulator of the MPI variants:
`total_time += MPI_Wtime() - t0;` executed once per repetition, starting
from `0.0` — a left fold of addition over the per-repetition samples. -/
def totalTimeAccum (samples : List ℚ) : ℚ :=
  samples.foldl (· + ·) 0

/-- Average time of the MPI variants:
`const double avg_time = total_time / N_REPEAT;`. -/
def avgTimeMpi (samples : List ℚ) : ℚ :=
  totalTimeAccum samples / (N_REPEAT : ℚ)

/-- Reported bandwidth of the MPI variants:
`const double bw_GBps = (2.0 * (double)msg_size / avg_time) * 1.0e-9;`. -/
def bwGBpsMpi (msg_size : Nat) (samples : List ℚ) : ℚ :=
  2 * (msg_size : ℚ) / avgTimeMpi samples * (1 / 10 ^ 9)

/-- Average time in seconds of the RCCL variant, from its millisecond
event-time accumulator:
`const double avg_s = ((double)total_ms / N_REPEAT) * 1.0e-3;`. -/
def avgSecRccl (total_ms : ℚ) : ℚ :=
  total_ms / (N_REPEAT : ℚ) * (1 / 10 ^ 3)

/-- Reported bandwidth of the RCCL variant:
`const double bw_GBps = (2.0 * (double)msg_size / avg_s) * 1.0e-9;`. -/
def bwGBpsRccl (msg_size : Nat) (total_ms : ℚ) : ℚ :=
  2 * (msg_size : ℚ) / avgSecRccl total_ms * (1 / 10 ^ 9)

/-- C7: for every message size the programs visit, the reported bandwidth
is `2 * size_bytes / average_time` expressed in GB/s (the explicit
`1.0e-9` factor of the source is the unit conversion), where the average
time is the timing accumulator divided by the fixed compile-time count
`N_REPEAT = 10`; the accumulator is a plain sum of every repetition's
sample with no outlier rejection; and a positive average time makes the
reported bandwidth strictly positive (and, as a rational value, finite). -/
theorem ring_bandwidth_formula (msg_size : Nat) (samples : List ℚ)
    (total_ms : ℚ) (hs : msg_size ∈ msgSizes)
    (havg : 0 < avgTimeMpi samples) (hms : 0 < total_ms) :
    bwGBpsMpi msg_size samples * 10 ^ 9 =
      2 * (msg_size : ℚ) / (totalTimeAccum samples / (N_REPEAT : ℚ)) ∧
    0 < bwGBpsMpi msg_size samples ∧
    bwGBpsRccl msg_size total_ms * 10 ^ 9 =
      2 * (msg_size : ℚ) / avgSecRccl total_ms ∧
    0 < bwGBpsRccl msg_size total_ms ∧
    totalTimeAccum samples = samples.sum ∧
    (∀ x : ℚ, totalTimeAccum (samples ++ [x]) = totalTimeAccum samples + x) ∧
    N_REPEAT = 10 := by
  have hsize : 0 < msg_size := by
    have hall : msgSizes.all (fun s => decide (0 < s)) = true := rfl
    exact of_decide_eq_true (List.all_eq_true.mp hall msg_size hs)
  have hsizeQ : (0 : ℚ) < (msg_size : ℚ) := by exact_mod_cast hsize
  have havgR : 0 < avgSecRccl total_ms := by
    unfold avgSecRccl
    exact mul_pos (div_pos hms (by norm_num [N_REPEAT])) (by norm_num)
  refine ⟨?_, ?_, ?_, ?_, ?_, ?_, rfl⟩
  · unfold bwGBpsMpi avgTimeMpi
    ring
  · unfold bwGBpsMpi
    have h2 : 0 < 2 * (msg_size : ℚ) / avgTimeMpi samples :=
      div_pos (by linarith) havg
    exact mul_pos h2 (by norm_num)
  · unfold bwGBpsRccl
    ring
  · unfold bwGBpsRccl
    have h2 : 0 < 2 * (msg_size : ℚ) / avgSecRccl total_ms :=
      div_pos (by linarith) havgR
    exact mul_pos h2 (by norm_num)
  · unfold totalTimeAccum
    rw [List.sum_eq_foldl]
  · intro x
    unfold totalTimeAccum
    rw [List.foldl_append]
    rfl

/-- Witness for the C7 theorem: the smallest visited size `2^26`, ten
1-second samples (average 1 s), and a 5 ms RCCL accumulator. -/
theorem ring_bandwidth_formula_witness :
    (2 ^ 26 ∈ msgSizes ∧ 0 < avgTimeMpi (List.replicate 10 1) ∧
      (0 : ℚ) < 5) ∧
    0 < bwGBpsMpi (2 ^ 26) (List.replicate 10 1) ∧
    0 < bwGBpsRccl (2 ^ 26) 5 :=
  have havg : 0 < avgTimeMpi (List.replicate 10 1) := by
    norm_num [avgTimeMpi, totalTimeAccum, List.replicate, N_REPEAT]
  have h := ring_bandwidth_formula (2 ^ 26) (List.replicate 10 1) 5
    (by decide) havg (by norm_num)
  ⟨⟨by decide, havg, by norm_num⟩, h.2.1, h.2.2.2.1⟩
